import Mathlib

/- Verification development for the ElezioniVeneto2025 scraper (Bepi.py).

The Python source is shallowly embedded below:
  - strings are Lean String values; Python s.upper() is strUpper
    (character-wise ASCII uppercasing, matching Char.toUpper);
  - JSON dictionaries with optional fields become structures whose fields are
    Option-typed, and dict.get(k, d) becomes Option.getD;
  - the Python dicts used as ordered maps (insertion order preserved, key
    assignment replaces in place) become association lists with alInsert /
    alUpdate / alLookup;
  - functions returning a JSON value or None return Option;
  - the network is an oracle parameter: per-attempt outcomes for the retrying
    fetchers, and per-section documents for the crawl driver. -/

/- ---------- string helpers ---------- -/

/-- Character-wise uppercasing; embeds Python str.upper for the ASCII strings
the program compares. -/
def strUpper (s : String) : String :=
  (s.data.map Char.toUpper).asString

/-- Does hay start with needle? (helper for substring containment). -/
def seqStarts : List Char → List Char → Bool
  | _, [] => true
  | [], _ :: _ => false
  | a :: hs, b :: ns => a == b && seqStarts hs ns

/-- Does hay contain needle as a contiguous subsequence? -/
def seqHas : List Char → List Char → Bool
  | [], needle => needle.isEmpty
  | a :: hs, needle => seqStarts (a :: hs) needle || seqHas hs needle

/-- Embeds the Python expression needle in hay (substring containment). -/
def strContainsSub (hay needle : String) : Bool :=
  seqHas hay.data needle.data

/-- Embeds the Python slice s[a:b] (for a ≤ b). -/
def strSlice (s : String) (a b : Nat) : String :=
  ((s.data.drop a).take (b - a)).asString

/-- Embeds sez.get('num', '').lstrip('0') or '1' from the row-writing code. -/
def lstripZero (s : String) : String :=
  let t := s.data.dropWhile (fun c => c == '0')
  if t.isEmpty then "1" else t.asString

/- ---------- association lists (Python dicts in insertion order) ---------- -/

/-- Lookup in a Python-dict-as-association-list. -/
def alLookup {α : Type} : List (String × α) → String → Option α
  | [], _ => none
  | (k, v) :: t, q => if k = q then some v else alLookup t q

/-- Python d[q] = v: replace in place if the key exists, else append. -/
def alInsert {α : Type} (q : String) (v : α) : List (String × α) → List (String × α)
  | [] => [(q, v)]
  | (k, w) :: t => if k = q then (q, v) :: t else (k, w) :: alInsert q v t

/-- In-place mutation of the value stored at key q (identity if absent). -/
def alUpdate {α : Type} (q : String) (f : α → α) : List (String × α) → List (String × α)
  | [] => []
  | (k, w) :: t => if k = q then (k, f w) :: t else (k, w) :: alUpdate q f t

/-- The keys of an association list, in order. -/
def alKeys {α : Type} (l : List (String × α)) : List String :=
  l.map (fun p => p.1)

/- ---------- parse_codice_13 ---------- -/

/-- The dict returned by parse_codice_13. -/
structure Codice13 where
  regione : String
  provincia : String
  comune : String
  sezione : String
  raw : String
deriving DecidableEq

/-- Embeds parse_codice_13: length guard, then four positional slices. -/
def parse_codice_13 (codice : String) : Option Codice13 :=
  if codice.length = 13 then
    some ⟨strSlice codice 0 2, strSlice codice 2 5, strSlice codice 5 9,
          strSlice codice 9 13, codice⟩
  else
    none

/- ---------- build_mapping_from_anagrafica ---------- -/

/-- One record of the anagrafica entity list (fields after dict.get
defaulting: tipo from ente.get('tipo'), desc from ente.get('desc', ''),
cod from ente.get('cod', '')). -/
structure Ente where
  tipo : String
  desc : String
  cod : String
deriving DecidableEq

/-- A section entry appended under a comune. -/
structure Sez where
  num : String
  cod_raw : String
deriving DecidableEq

/-- The per-comune dict built by the CM branch. -/
structure ComData where
  cod_api : String
  cod_prov : String
  cod_raw : String
  sezioni : List Sez
deriving DecidableEq

/-- The per-provincia dict built by the PR branch. -/
structure ProvData where
  cod_api : String
  cod_raw : String
  comuni : List (String × ComData)
deriving DecidableEq

abbrev ProvMap := List (String × ProvData)

/-- The mutable state of the build loop: the province dict plus the
current_prov / current_com pointers (None before first assignment). -/
structure BState where
  province : ProvMap
  cur_prov : Option String
  cur_com : Option String
deriving DecidableEq

/-- Python truthiness of an optional string: None and '' are falsy. -/
def truthy : Option String → Bool
  | none => false
  | some s => s != ""

/-- One iteration of the loop body of build_mapping_from_anagrafica. -/
def buildStep (s : BState) (ente : Ente) : BState :=
  match parse_codice_13 ente.cod with
  | none => s
  | some parsed =>
    if ente.tipo = "RE" then
      s
    else if ente.tipo = "PR" then
      { s with
        cur_prov := some ente.desc,
        province := alInsert ente.desc ⟨parsed.provincia, ente.cod, []⟩ s.province }
    else if ente.tipo = "CM" then
      match s.cur_prov with
      | some p =>
        if p != "" && (alLookup s.province p).isSome then
          { s with
            cur_com := some ente.desc,
            province := alUpdate p
              (fun pd => { pd with
                comuni := alInsert ente.desc
                  ⟨parsed.comune, parsed.provincia, ente.cod, []⟩ pd.comuni })
              s.province }
        else { s with cur_com := some ente.desc }
      | none => { s with cur_com := some ente.desc }
    else if ente.tipo = "SZ" then
      match s.cur_prov, s.cur_com with
      | some p, some c =>
        if p != "" && c != "" then
          match alLookup s.province p with
          | some pd =>
            if (alLookup pd.comuni c).isSome then
              { s with
                province := alUpdate p
                  (fun pd2 => { pd2 with
                    comuni := alUpdate c
                      (fun cd => { cd with
                        sezioni := cd.sezioni ++ [⟨parsed.sezione, ente.cod⟩] })
                      pd2.comuni })
                  s.province }
            else s
          | none => s
        else s
      | some _, none => s
      | none, _ => s
    else s

/-- The loop of build_mapping_from_anagrafica, from an arbitrary state. -/
def buildAux : BState → List Ente → BState
  | s, [] => s
  | s, e :: rest => buildAux (buildStep s e) rest

def initBState : BState := ⟨[], none, none⟩

/-- Embeds build_mapping_from_anagrafica. -/
def build_mapping_from_anagrafica (enti : List Ente) : ProvMap :=
  (buildAux initBState enti).province

/- ---------- tally / preference documents and extractors ---------- -/

/-- One entry of cand[x].liste[] in a scrutini document. -/
structure Lista where
  desc_lis_c : Option String
  voti : Option Int
deriving DecidableEq

/-- One entry of cand[] in a scrutini document. -/
structure CandS where
  cogn : Option String
  liste : Option (List Lista)
deriving DecidableEq

/-- A scrutini (tally) document. -/
structure Scrutini where
  cand : Option (List CandS)
deriving DecidableEq

/-- One entry of cand[] in a preference document. -/
structure CandP where
  cogn : Option String
  nome : Option String
  voti : Option Int
deriving DecidableEq

/-- A preference document. -/
structure Prefe where
  cand : Option (List CandP)
deriving DecidableEq

/-- The inner-loop test: 'LEGA' in lista.get('desc_lis_c', '').upper(). -/
def legaMatch (l : Lista) : Bool :=
  strContainsSub (strUpper (l.desc_lis_c.getD "")) "LEGA"

/-- The inner for-loop over a candidate's liste in extract_voti_lega. -/
def findListaLega : List Lista → Option Int
  | [] => none
  | l :: rest => if legaMatch l then some (l.voti.getD 0) else findListaLega rest

/-- The outer-loop test: cand.get('cogn', '').upper() == 'STEFANI'. -/
def stefaniMatch (c : CandS) : Bool :=
  strUpper (c.cogn.getD "") == "STEFANI"

/-- The outer for-loop over candidates in extract_voti_lega; falls through to
the next candidate when a STEFANI candidate has no LEGA-matching list. -/
def findCandStefani : List CandS → Option Int
  | [] => none
  | c :: rest =>
    if stefaniMatch c then
      match findListaLega (c.liste.getD []) with
      | some v => some v
      | none => findCandStefani rest
    else findCandStefani rest

/-- Embeds extract_voti_lega (None input is the falsy early return). -/
def extract_voti_lega : Option Scrutini → Option Int
  | none => none
  | some sd => findCandStefani (sd.cand.getD [])

/-- The loop test of extract_preferenze_zaia. -/
def zaiaMatch (c : CandP) : Bool :=
  strUpper (c.cogn.getD "") == "ZAIA" && strUpper (c.nome.getD "") == "LUCA"

/-- The for-loop over candidates in extract_preferenze_zaia. -/
def findZaiaLuca : List CandP → Option Int
  | [] => none
  | c :: rest => if zaiaMatch c then some (c.voti.getD 0) else findZaiaLuca rest

/-- Embeds extract_preferenze_zaia. -/
def extract_preferenze_zaia : Option Prefe → Option Int
  | none => none
  | some pd => findZaiaLuca (pd.cand.getD [])

/- ---------- retrying per-section fetchers ---------- -/

/-- Outcome of one HTTP attempt: a decoded document, a
requests.exceptions.ConnectionError, or any other exception. -/
inductive FetchTry (α : Type) where
  | ok (d : α)
  | connErr
  | otherErr
deriving DecidableEq

/-- The retry loop shared by get_scrutini_sezione and get_preferenze_sezione:
attempt numbers count up from the given index while the remaining-attempt
budget counts down; each retried connection error records its sleep
(attempt+1)*2 in the returned wait list. Any other exception, or a
connection error on the final attempt, returns None. -/
def retryAux {α : Type} (f : Nat → FetchTry α) : Nat → Nat → Option α × List Nat
  | _, 0 => (none, [])
  | attempt, remaining + 1 =>
    match f attempt with
    | .ok d => (some d, [])
    | .connErr =>
      if remaining = 0 then (none, [])
      else
        ((retryAux f (attempt + 1) remaining).1,
          (attempt + 1) * 2 :: (retryAux f (attempt + 1) remaining).2)
    | .otherErr => (none, [])

/-- Embeds get_scrutini_sezione over the per-attempt outcome oracle f;
returns the fetched document (or None) and the list of retry waits. -/
def get_scrutini_sezione (f : Nat → FetchTry Scrutini) (max_retries : Nat := 3) :
    Option Scrutini × List Nat :=
  retryAux f 0 max_retries

/-- Embeds get_preferenze_sezione over the per-attempt outcome oracle f. -/
def get_preferenze_sezione (f : Nat → FetchTry Prefe) (max_retries : Nat := 3) :
    Option Prefe × List Nat :=
  retryAux f 0 max_retries

/- ---------- resumable crawl driver ---------- -/

/-- One CSV output row, in header order; the two vote fields are written as
empty cells when None. -/
structure Row where
  provincia : String
  cod_provincia : String
  comune : String
  cod_comune : String
  sezione : String
  cod_sezione : String
  voti_lega : Option Int
  preferenze_zaia : Option Int
deriving DecidableEq

/-- One leaf of the crawl: a section together with the loop variables in
scope when it is visited (cod_prov is cod_prov_actual = the comune's
cod_prov field, exactly what the loop uses). -/
structure SecEntry where
  nome_prov : String
  nome_com : String
  cod_prov : String
  cod_com : String
  num : String
deriving DecidableEq

/-- The skip key f-string cod_prov_actual/cod_com/cod_sez. -/
def secKey (s : SecEntry) : String :=
  s.cod_prov ++ "/" ++ s.cod_com ++ "/" ++ s.num

/-- The resume key built by load_processed_sections from one CSV row. -/
def rowKey (r : Row) : String :=
  r.cod_provincia ++ "/" ++ r.cod_comune ++ "/" ++ r.cod_sezione

/-- All sections of the hierarchy in the nested loop order of main
(provinces, then comuni, then sezioni). -/
def allSections (province : ProvMap) : List SecEntry :=
  province.flatMap (fun p =>
    p.2.comuni.flatMap (fun c =>
      c.2.sezioni.map (fun sz => ⟨p.1, c.1, c.2.cod_prov, c.2.cod_api, sz.num⟩)))

/-- The row written for one crawled section: hierarchy labels, the display
number (lstrip('0') or '1'), and the two extracted values, where fS / fP are
the (already retry-wrapped) per-section document oracles. -/
def mkRow (fS : String → String → String → Option Scrutini)
    (fP : String → String → String → Option Prefe) (s : SecEntry) : Row :=
  ⟨s.nome_prov, s.cod_prov, s.nome_com, s.cod_com, lstripZero s.num, s.num,
    extract_voti_lega (fS s.cod_prov s.cod_com s.num),
    extract_preferenze_zaia (fP s.cod_prov s.cod_com s.num)⟩

/-- The sections actually fetched: those whose skip key is not in the loaded
processed set. (The comune-level fast skip in main only skips comuni all of
whose sections this filter would drop anyway, so the written rows are exactly
the per-section filter result, in loop order.) -/
def pendingSections (province : ProvMap) (processed : List String) : List SecEntry :=
  (allSections province).filter (fun s => !(processed.contains (secKey s)))

/-- The rows written (and flushed) by the crawl loop of main, in order. -/
def crawlRows (province : ProvMap) (processed : List String)
    (fS : String → String → String → Option Scrutini)
    (fP : String → String → String → Option Prefe) : List Row :=
  (pendingSections province processed).map (mkRow fS fP)

/-- The test appending a section to errors_list: one of the two extracted
values is missing. -/
def rowFailed (r : Row) : Bool :=
  r.voti_lega.isNone || r.preferenze_zaia.isNone

/-- The errors_list built by the crawl loop: the skip key of every written
row with a missing field, in order. -/
def crawlErrors (province : ProvMap) (processed : List String)
    (fS : String → String → String → Option Scrutini)
    (fP : String → String → String → Option Prefe) : List String :=
  ((crawlRows province processed fS fP).filter rowFailed).map rowKey

/-- Embeds load_processed_sections: the resume keys of the rows of the
existing CSV (a Python set; modelled as the key list, used only through
membership). -/
def load_processed_sections (rows : List Row) : List String :=
  rows.map rowKey

/-- The observable outcome of a run of main that reached the CSV: the open
mode ('a' when appendMode, else 'w'), whether the header was written, and
the result rows and failure keys produced by the crawl. -/
structure MainOut where
  appendMode : Bool
  header : Bool
  rows : List Row
  errors : List String
deriving DecidableEq

/-- Embeds main: existingCsv is the parsed content of the output file when
it exists (None when it does not), anag is the result of get_anagrafica
(None when the fetch raised). Returns None exactly when main returns on the
anagrafica failure path, before the output CSV is ever opened for writing. -/
def mainModel (resume : Bool) (existingCsv : Option (List Row))
    (anag : Option (List Ente))
    (fS : String → String → String → Option Scrutini)
    (fP : String → String → String → Option Prefe) : Option MainOut :=
  let processed : List String :=
    match resume, existingCsv with
    | true, some rows => load_processed_sections rows
    | _, _ => []
  let appendMode := resume && existingCsv.isSome && !processed.isEmpty
  match anag with
  | none => none
  | some enti =>
    let province := build_mapping_from_anagrafica enti
    some ⟨appendMode, !appendMode, crawlRows province processed fS fP,
          crawlErrors province processed fS fP⟩

/- ---------- well-ordered (pre-order) inputs and the expected tree ---------- -/

/-- The section entry buildStep appends for a valid section record. -/
def mkSezEntry (e : Ente) : Sez :=
  ⟨strSlice e.cod 9 13, e.cod⟩

/-- The comune data expected for a comune record with its section records. -/
def mkComData (e : Ente) (szs : List Ente) : ComData :=
  ⟨strSlice e.cod 5 9, strSlice e.cod 2 5, e.cod, szs.map mkSezEntry⟩

/-- A comune block of a pre-order entity list: the comune record followed by
its section records. -/
structure ComB where
  comEnte : Ente
  sezEnti : List Ente
deriving DecidableEq

/-- A province block: the province record followed by its comune blocks. -/
structure ProvB where
  provEnte : Ente
  comuni : List ComB
deriving DecidableEq

/-- The province data expected for a province block. -/
def mkProvData (pb : ProvB) : ProvData :=
  ⟨strSlice pb.provEnte.cod 2 5, pb.provEnte.cod,
    pb.comuni.map (fun cb => (cb.comEnte.desc, mkComData cb.comEnte cb.sezEnti))⟩

/-- The tree a pre-order forest should build: every province exactly once, its
comuni in order, their sezioni in input order. -/
def expectedMap (F : List ProvB) : ProvMap :=
  F.map (fun pb => (pb.provEnte.desc, mkProvData pb))

def flattenCom (cb : ComB) : List Ente :=
  cb.comEnte :: cb.sezEnti

def flattenProv (pb : ProvB) : List Ente :=
  pb.provEnte :: pb.comuni.flatMap flattenCom

/-- The strict pre-order flattening of a forest of province blocks. -/
def flattenForest (F : List ProvB) : List Ente :=
  F.flatMap flattenProv

/-- Well-formed comune block: CM kind, 13-character code, nonempty name,
section records of SZ kind with 13-character codes. -/
def WFCom (cb : ComB) : Prop :=
  cb.comEnte.tipo = "CM" ∧ cb.comEnte.cod.length = 13 ∧ cb.comEnte.desc ≠ "" ∧
  ∀ e ∈ cb.sezEnti, e.tipo = "SZ" ∧ e.cod.length = 13

/-- Well-formed province block: PR kind, 13-character code, nonempty name,
well-formed comune blocks with names distinct within the province. -/
def WFProv (pb : ProvB) : Prop :=
  pb.provEnte.tipo = "PR" ∧ pb.provEnte.cod.length = 13 ∧ pb.provEnte.desc ≠ "" ∧
  (∀ cb ∈ pb.comuni, WFCom cb) ∧
  (pb.comuni.map (fun cb => cb.comEnte.desc)).Nodup

/-- Well-formed forest: well-formed province blocks with distinct names. -/
def WFForest (F : List ProvB) : Prop :=
  (∀ pb ∈ F, WFProv pb) ∧ (F.map (fun pb => pb.provEnte.desc)).Nodup

/- ---------- most-recently-seen valid records (for the order semantics) ---------- -/

/-- A record that updates the current_prov pointer: province kind with a
13-character code. -/
def isValidPR (e : Ente) : Bool :=
  e.tipo == "PR" && e.cod.length == 13

/-- A record that updates the current_com pointer: comune kind with a
13-character code. -/
def isValidCM (e : Ente) : Bool :=
  e.tipo == "CM" && e.cod.length == 13

/-- The most recently seen pointer-updating province record of a list. -/
def lastValidPR (enti : List Ente) : Option Ente :=
  enti.foldl (fun a e => if isValidPR e then some e else a) none

/-- The most recently seen pointer-updating comune record of a list. -/
def lastValidCM (enti : List Ente) : Option Ente :=
  enti.foldl (fun a e => if isValidCM e then some e else a) none

/- ================== helper lemmas ================== -/

theorem asString_append (a b : List Char) : a.asString ++ b.asString = (a ++ b).asString := rfl

theorem asString_data (s : String) : s.data.asString = s := rfl

theorem parse_eq_none_iff (codice : String) :
    parse_codice_13 codice = none ↔ codice.length ≠ 13 := by
  unfold parse_codice_13
  split <;> simp_all

theorem parse_of_len13 (codice : String) (h : codice.length = 13) :
    parse_codice_13 codice =
      some ⟨strSlice codice 0 2, strSlice codice 2 5, strSlice codice 5 9,
            strSlice codice 9 13, codice⟩ := by
  simp [parse_codice_13, h]

theorem findListaLega_eq_none (L : List Lista) (h : ∀ l ∈ L, ¬ legaMatch l) :
    findListaLega L = none := by
  induction L with
  | nil => rfl
  | cons l rest ih =>
    have h1 : ¬ legaMatch l := h l (by simp)
    simp only [findListaLega, Bool.not_eq_true] at *
    simp [h1, ih (fun x hx => h x (by simp [hx]))]

theorem findListaLega_hit (lpre : List Lista) (le : Lista) (lpost : List Lista)
    (hpre : ∀ l ∈ lpre, ¬ legaMatch l) (hle : legaMatch le) :
    findListaLega (lpre ++ le :: lpost) = some (le.voti.getD 0) := by
  induction lpre with
  | nil => simp [findListaLega, hle]
  | cons l rest ih =>
    have h1 : ¬ legaMatch l := hpre l (by simp)
    simp only [Bool.not_eq_true] at h1
    simp [findListaLega, h1, ih (fun x hx => hpre x (by simp [hx]))]

theorem findCandStefani_eq_none (C : List CandS)
    (h : ∀ c ∈ C, ¬ (stefaniMatch c ∧ ∃ l ∈ c.liste.getD [], legaMatch l)) :
    findCandStefani C = none := by
  induction C with
  | nil => rfl
  | cons c rest ih =>
    have hrest := ih (fun x hx => h x (by simp [hx]))
    by_cases hs : stefaniMatch c
    · have hnol : ∀ l ∈ c.liste.getD [], ¬ legaMatch l := by
        intro l hl hlm
        exact h c (by simp) ⟨hs, l, hl, hlm⟩
      simp [findCandStefani, hs, findListaLega_eq_none _ hnol, hrest]
    · simp only [Bool.not_eq_true] at hs
      simp [findCandStefani, hs, hrest]

theorem findCandStefani_hit (cpre : List CandS) (st : CandS) (cpost : List CandS) (v : Int)
    (hpre : ∀ c ∈ cpre, ¬ (stefaniMatch c ∧ ∃ l ∈ c.liste.getD [], legaMatch l))
    (hst : stefaniMatch st) (hfound : findListaLega (st.liste.getD []) = some v) :
    findCandStefani (cpre ++ st :: cpost) = some v := by
  induction cpre with
  | nil => simp [findCandStefani, hst, hfound]
  | cons c rest ih =>
    have hrest := ih (fun x hx => hpre x (by simp [hx]))
    by_cases hs : stefaniMatch c
    · have hnol : ∀ l ∈ c.liste.getD [], ¬ legaMatch l := by
        intro l hl hlm
        exact hpre c (by simp) ⟨hs, l, hl, hlm⟩
      simp [findCandStefani, hs, findListaLega_eq_none _ hnol, hrest]
    · simp only [Bool.not_eq_true] at hs
      simp [findCandStefani, hs, hrest]

theorem findZaiaLuca_eq_none (C : List CandP) (h : ∀ c ∈ C, ¬ zaiaMatch c) :
    findZaiaLuca C = none := by
  induction C with
  | nil => rfl
  | cons c rest ih =>
    have h1 : ¬ zaiaMatch c := h c (by simp)
    simp only [Bool.not_eq_true] at h1
    simp [findZaiaLuca, h1, ih (fun x hx => h x (by simp [hx]))]

theorem findZaiaLuca_hit (pre : List CandP) (zc : CandP) (post : List CandP)
    (hpre : ∀ c ∈ pre, ¬ zaiaMatch c) (hzc : zaiaMatch zc) :
    findZaiaLuca (pre ++ zc :: post) = some (zc.voti.getD 0) := by
  induction pre with
  | nil => simp [findZaiaLuca, hzc]
  | cons c rest ih =>
    have h1 : ¬ zaiaMatch c := hpre c (by simp)
    simp only [Bool.not_eq_true] at h1
    simp [findZaiaLuca, h1, ih (fun x hx => hpre x (by simp [hx]))]

/- ================== claim theorems (decoder, extractors) ================== -/

/-- C9: for every string of exactly 13 characters, parse_codice_13 returns the
four positional substrings (0-2 region, 2-5 province, 5-9 municipality,
9-13 section) and their concatenation reconstructs the original code; for any
other length it returns none, and no validation beyond length is performed
(every 13-character string succeeds). -/
theorem parse_codice_13_contract (codice : String) :
    (codice.length = 13 →
      parse_codice_13 codice =
        some ⟨strSlice codice 0 2, strSlice codice 2 5, strSlice codice 5 9,
              strSlice codice 9 13, codice⟩ ∧
      strSlice codice 0 2 ++ strSlice codice 2 5 ++ strSlice codice 5 9 ++
        strSlice codice 9 13 = codice) ∧
    (codice.length ≠ 13 → parse_codice_13 codice = none) := by
  refine ⟨fun h => ⟨parse_of_len13 codice h, ?_⟩, fun h => (parse_eq_none_iff codice).2 h⟩
  have hl : codice.data.length = 13 := h
  have a4 : codice.data.take 13 = codice.data := List.take_of_length_le (by omega)
  have b1 : (codice.data.drop 5).take 4 ++ (codice.data.drop 9).take 4 =
      (codice.data.drop 5).take 8 := by
    have hta := List.take_add (codice.data.drop 5) 4 4
    simp [List.drop_drop] at hta
    exact hta.symm
  have b2 : (codice.data.drop 2).take 3 ++ (codice.data.drop 5).take 8 =
      (codice.data.drop 2).take 11 := by
    have hta := List.take_add (codice.data.drop 2) 3 8
    simp [List.drop_drop] at hta
    exact hta.symm
  have b3 : codice.data.take 2 ++ (codice.data.drop 2).take 11 = codice.data.take 13 := by
    have hta := List.take_add codice.data 2 11
    simp at hta
    exact hta.symm
  simp only [strSlice, asString_append, Nat.sub_zero, List.drop_zero]
  norm_num
  rw [b1, b2, b3, a4, asString_data]

/-- C9 witness: a concrete 13-character code decodes into its four parts, and
a shorter code fails. -/
theorem parse_codice_13_contract_w :
    parse_codice_13 "0508704200001" =
      some ⟨"05", "087", "0420", "0001", "0508704200001"⟩ ∧
    parse_codice_13 "05087" = none := by
  refine ⟨?_, (parse_codice_13_contract "05087").2 (by decide)⟩
  have h := (parse_codice_13_contract "0508704200001").1 (by decide)
  rw [h.1]
  decide

/-- C10: a record whose code is not exactly 13 characters is skipped by the
hierarchy builder with no state change at all (in particular the
current-province and current-municipality pointers are untouched), so the
remaining records are processed exactly as if the malformed record were
absent. -/
theorem buildAux_skip_malformed (s : BState) (e : Ente) (rest : List Ente)
    (h : e.cod.length ≠ 13) :
    buildAux s (e :: rest) = buildAux s rest := by
  have hp : parse_codice_13 e.cod = none := (parse_eq_none_iff e.cod).2 h
  simp [buildAux, buildStep, hp]

/-- C10 witness: a 4-character province record leaves the builder state
unchanged, so a following section still lands under the previous province. -/
theorem buildAux_skip_malformed_w :
    buildAux initBState
      (Ente.mk "PR" "PADOVA" "0502" :: [Ente.mk "SZ" "S" "0502800010001"]) =
    buildAux initBState [Ente.mk "SZ" "S" "0502800010001"] :=
  buildAux_skip_malformed initBState (Ente.mk "PR" "PADOVA" "0502")
    [Ente.mk "SZ" "S" "0502800010001"] (by decide)

/-- C3: the tally extractor returns the vote count of the first
LEGA-matching list of the first STEFANI candidate that has one (so in a
document whose only such entry has count 437 it returns 437); with no
STEFANI candidate, or none whose lists contain a LEGA match, it returns
none — and being a total function it never raises. -/
theorem extract_voti_lega_spec :
    (∀ (cpre cpost : List CandS) (st : CandS) (lpre lpost : List Lista) (le : Lista) (v : Int),
      (∀ c ∈ cpre, ¬ (stefaniMatch c ∧ ∃ l ∈ c.liste.getD [], legaMatch l)) →
      stefaniMatch st →
      st.liste = some (lpre ++ le :: lpost) →
      (∀ l ∈ lpre, ¬ legaMatch l) →
      legaMatch le →
      le.voti = some v →
      extract_voti_lega (some ⟨some (cpre ++ st :: cpost)⟩) = some v) ∧
    (∀ cands : List CandS, (∀ c ∈ cands, ¬ stefaniMatch c) →
      extract_voti_lega (some ⟨some cands⟩) = none) ∧
    (∀ cands : List CandS,
      (∀ c ∈ cands, ¬ (stefaniMatch c ∧ ∃ l ∈ c.liste.getD [], legaMatch l)) →
      extract_voti_lega (some ⟨some cands⟩) = none) := by
  refine ⟨?_, ?_, ?_⟩
  · intro cpre cpost st lpre lpost le v hpre hst hliste hlpre hle hv
    have hfound : findListaLega (st.liste.getD []) = some v := by
      rw [hliste]
      simpa [hv] using findListaLega_hit lpre le lpost hlpre hle
    simpa [extract_voti_lega] using findCandStefani_hit cpre st cpost v hpre hst hfound
  · intro cands h
    have : ∀ c ∈ cands, ¬ (stefaniMatch c ∧ ∃ l ∈ c.liste.getD [], legaMatch l) :=
      fun c hc hm => h c hc hm.1
    simpa [extract_voti_lega] using findCandStefani_eq_none cands this
  · intro cands h
    simpa [extract_voti_lega] using findCandStefani_eq_none cands h

/-- C3 witness: a document with a mixed-case Stefani candidate whose second
list matches LEGA with 437 votes yields 437; a document with no STEFANI
candidate, and one whose STEFANI candidate has no LEGA list, yield none. -/
theorem extract_voti_lega_spec_w :
    extract_voti_lega (some ⟨some
      [⟨some "ROSSI", some [⟨some "LEGA NORD", some 10⟩]⟩,
       ⟨some "Stefani", some [⟨some "ALTRA LISTA", some 5⟩,
                              ⟨some "Lega - Liga Veneta", some 437⟩]⟩]⟩) = some 437 ∧
    extract_voti_lega (some ⟨some [⟨some "ROSSI", some [⟨some "LEGA", some 9⟩]⟩]⟩) = none ∧
    extract_voti_lega (some ⟨some [⟨some "STEFANI", some [⟨some "FORZA", some 3⟩]⟩]⟩) = none := by
  refine ⟨?_, ?_, ?_⟩
  · exact extract_voti_lega_spec.1
      [⟨some "ROSSI", some [⟨some "LEGA NORD", some 10⟩]⟩] []
      ⟨some "Stefani", some [⟨some "ALTRA LISTA", some 5⟩, ⟨some "Lega - Liga Veneta", some 437⟩]⟩
      [⟨some "ALTRA LISTA", some 5⟩] [] ⟨some "Lega - Liga Veneta", some 437⟩ 437
      (by decide) (by decide) rfl (by decide) (by decide) rfl
  · exact extract_voti_lega_spec.2.1 [⟨some "ROSSI", some [⟨some "LEGA", some 9⟩]⟩] (by decide)
  · exact extract_voti_lega_spec.2.2 [⟨some "STEFANI", some [⟨some "FORZA", some 3⟩]⟩] (by decide)

/-- C8: the preference extractor returns the vote count of the candidate
matching surname ZAIA and given name LUCA case-insensitively, whatever the
other entries are (here: the first such candidate, with arbitrary
non-matching entries around it); with no such candidate it returns none. -/
theorem extract_preferenze_zaia_spec :
    (∀ (pre post : List CandP) (zc : CandP) (v : Int),
      (∀ c ∈ pre, ¬ zaiaMatch c) → zaiaMatch zc → zc.voti = some v →
      extract_preferenze_zaia (some ⟨some (pre ++ zc :: post)⟩) = some v) ∧
    (∀ cands : List CandP, (∀ c ∈ cands, ¬ zaiaMatch c) →
      extract_preferenze_zaia (some ⟨some cands⟩) = none) := by
  refine ⟨?_, ?_⟩
  · intro pre post zc v hpre hzc hv
    simpa [extract_preferenze_zaia, hv] using findZaiaLuca_hit pre zc post hpre hzc
  · intro cands h
    simpa [extract_preferenze_zaia] using findZaiaLuca_eq_none cands h

/-- C8 witness: ZAIA LUCA with 512 votes among differently-cased other
entries yields 512, whatever their order; without him the result is none. -/
theorem extract_preferenze_zaia_spec_w :
    extract_preferenze_zaia (some ⟨some
      [⟨some "zaia", some "Marco", some 7⟩,
       ⟨some "Zaia", some "Luca", some 512⟩,
       ⟨some "BITONCI", some "MASSIMO", some 90⟩]⟩) = some 512 ∧
    extract_preferenze_zaia (some ⟨some [⟨some "BITONCI", some "MASSIMO", some 90⟩]⟩) = none := by
  refine ⟨?_, ?_⟩
  · exact extract_preferenze_zaia_spec.1
      [⟨some "zaia", some "Marco", some 7⟩]
      [⟨some "BITONCI", some "MASSIMO", some 90⟩]
      ⟨some "Zaia", some "Luca", some 512⟩ 512 (by decide) (by decide) rfl
  · exact extract_preferenze_zaia_spec.2 [⟨some "BITONCI", some "MASSIMO", some 90⟩] (by decide)

/-- C5 counterexample: a document whose matched (STEFANI, LEGA) list entry
has no vote-count field. The claim says the extractor treats this as none;
the code returns the dict.get default 0 instead. -/
theorem extract_missing_field_cex :
    extract_voti_lega (some ⟨some [⟨some "STEFANI",
      some [⟨some "LEGA - LIGA VENETA", none⟩]⟩]⟩) = some 0 ∧
    extract_voti_lega (some ⟨some [⟨some "STEFANI",
      some [⟨some "LEGA - LIGA VENETA", none⟩]⟩]⟩) ≠ none := by
  decide

/-- C5 amended: an absent document or absent candidate-list field yields
none, and absent name/description fields merely fail to match (degrading to
none when nothing else matches); but an absent vote-count field on the
matched entry is returned as the default 0 — a present value, not none; no
case raises an error (the extractors are total). -/
theorem extract_missing_field_amended :
    (∀ (cpre cpost : List CandS) (st : CandS) (lpre lpost : List Lista) (le : Lista),
      (∀ c ∈ cpre, ¬ (stefaniMatch c ∧ ∃ l ∈ c.liste.getD [], legaMatch l)) →
      stefaniMatch st → st.liste = some (lpre ++ le :: lpost) →
      (∀ l ∈ lpre, ¬ legaMatch l) → legaMatch le → le.voti = none →
      extract_voti_lega (some ⟨some (cpre ++ st :: cpost)⟩) = some 0) ∧
    (∀ (pre post : List CandP) (zc : CandP),
      (∀ c ∈ pre, ¬ zaiaMatch c) → zaiaMatch zc → zc.voti = none →
      extract_preferenze_zaia (some ⟨some (pre ++ zc :: post)⟩) = some 0) ∧
    (∀ sd : Scrutini, sd.cand = none → extract_voti_lega (some sd) = none) ∧
    (∀ pdoc : Prefe, pdoc.cand = none → extract_preferenze_zaia (some pdoc) = none) ∧
    extract_voti_lega none = none ∧ extract_preferenze_zaia none = none := by
  refine ⟨?_, ?_, ?_, ?_, rfl, rfl⟩
  · intro cpre cpost st lpre lpost le hpre hst hliste hlpre hle hv
    have hfound : findListaLega (st.liste.getD []) = some 0 := by
      rw [hliste]
      simpa [hv] using findListaLega_hit lpre le lpost hlpre hle
    simpa [extract_voti_lega] using findCandStefani_hit cpre st cpost 0 hpre hst hfound
  · intro pre post zc hpre hzc hv
    simpa [extract_preferenze_zaia, hv] using findZaiaLuca_hit pre zc post hpre hzc
  · intro sd h
    simp [extract_voti_lega, h, findCandStefani]
  · intro pdoc h
    simp [extract_preferenze_zaia, h, findZaiaLuca]

/-- C5 amended witness: concrete instances of each degradation case. -/
theorem extract_missing_field_amended_w :
    extract_voti_lega (some ⟨some [⟨some "Stefani", some [⟨some "lega x", none⟩]⟩]⟩) = some 0 ∧
    extract_preferenze_zaia (some ⟨some [⟨some "ZAIA", some "LUCA", none⟩]⟩) = some 0 ∧
    extract_voti_lega (some ⟨none⟩) = none ∧
    extract_preferenze_zaia (some ⟨none⟩) = none := by
  refine ⟨?_, ?_, ?_, ?_⟩
  · exact extract_missing_field_amended.1 [] [] ⟨some "Stefani", some [⟨some "lega x", none⟩]⟩
      [] [] ⟨some "lega x", none⟩ (by decide) (by decide) rfl (by decide) (by decide) rfl
  · exact extract_missing_field_amended.2.1 [] [] ⟨some "ZAIA", some "LUCA", none⟩
      (by decide) (by decide) rfl
  · exact extract_missing_field_amended.2.2.1 ⟨none⟩ rfl
  · exact extract_missing_field_amended.2.2.2.1 ⟨none⟩ rfl

/-- C6: if the initial get_anagrafica fetch fails, main aborts on the
diagnostic path before the output CSV is opened in any mode: the model run
produces no CSV outcome at all (no open, no truncation, no append, no rows),
for every resume flag and every prior file state. -/
theorem main_abort_on_anagrafica_failure (resume : Bool) (existingCsv : Option (List Row))
    (fS : String → String → String → Option Scrutini)
    (fP : String → String → String → Option Prefe) :
    mainModel resume existingCsv none fS fP = none := rfl

/- ================== crawl-loop lemmas ================== -/

theorem rowKey_mkRow (fS : String → String → String → Option Scrutini)
    (fP : String → String → String → Option Prefe) (s : SecEntry) :
    rowKey (mkRow fS fP s) = secKey s := rfl

theorem pendingSections_nil (π : ProvMap) : pendingSections π [] = allSections π := by
  simp [pendingSections]

theorem load_crawlRows (π : ProvMap) (proc : List String)
    (fS : String → String → String → Option Scrutini)
    (fP : String → String → String → Option Prefe) :
    load_processed_sections (crawlRows π proc fS fP) =
      (pendingSections π proc).map secKey := by
  unfold load_processed_sections crawlRows
  rw [List.map_map]
  rfl

theorem pendingSections_all_mem (π : ProvMap) (keys : List String)
    (h : ∀ s ∈ allSections π, secKey s ∈ keys) :
    pendingSections π keys = [] := by
  rw [pendingSections, List.filter_eq_nil_iff]
  intro s hs
  simp [List.contains, h s hs]

/-- C1: resume idempotence. The keys loaded from the output of a complete
uninterrupted fresh run are exactly the skip keys of every section of the
hierarchy, so a second resume run over the same hierarchy skips every
section and writes zero result rows — stated for the crawl loop over any
hierarchy and for the full main pipeline over the hierarchy built from any
entity list. -/
theorem crawl_resume_idempotent (π : ProvMap) (enti : List Ente)
    (fS fS' : String → String → String → Option Scrutini)
    (fP fP' : String → String → String → Option Prefe) :
    load_processed_sections (crawlRows π [] fS fP) = (allSections π).map secKey ∧
    crawlRows π (load_processed_sections (crawlRows π [] fS fP)) fS' fP' = [] ∧
    (mainModel true
        (some (crawlRows (build_mapping_from_anagrafica enti) [] fS fP))
        (some enti) fS' fP').map MainOut.rows = some [] := by
  have hload : ∀ π' : ProvMap,
      load_processed_sections (crawlRows π' [] fS fP) = (allSections π').map secKey := by
    intro π'
    rw [load_crawlRows, pendingSections_nil]
  have hempty : ∀ π' : ProvMap,
      crawlRows π' ((allSections π').map secKey) fS' fP' = [] := by
    intro π'
    unfold crawlRows
    rw [pendingSections_all_mem]
    · rfl
    · intro s hs
      exact List.mem_map_of_mem secKey hs
  refine ⟨hload π, ?_, ?_⟩
  · rw [hload π]
    exact hempty π
  · show some (crawlRows (build_mapping_from_anagrafica enti)
      (load_processed_sections (crawlRows (build_mapping_from_anagrafica enti) [] fS fP))
      fS' fP') = some []
    rw [hload, hempty]

/- ================== retry-loop lemmas ================== -/

theorem retryAux_allConn {α : Type} (f : Nat → FetchTry α) :
    ∀ (m a : Nat), 0 < m → (∀ i, i < a + m → f i = .connErr) →
      retryAux f a m = (none, (List.range (m - 1)).map (fun i => (a + i + 1) * 2)) := by
  intro m
  induction m with
  | zero => intro a h; omega
  | succ r ih =>
    intro a _ hconn
    have hfa : f a = .connErr := hconn a (by omega)
    by_cases hr : r = 0
    · subst hr
      simp [retryAux, hfa]
    · obtain ⟨r', rfl⟩ : ∃ r', r = r' + 1 := ⟨r - 1, by omega⟩
      have hrec := ih (a + 1) (by omega) (fun i hi => hconn i (by omega))
      have hstep : retryAux f a (r' + 1 + 1) =
          ((retryAux f (a + 1) (r' + 1)).1,
            (a + 1) * 2 :: (retryAux f (a + 1) (r' + 1)).2) := by
        conv_lhs => rw [retryAux]
        rw [hfa]
        show (if r' + 1 = 0 then ((none : Option α), ([] : List Nat))
          else ((retryAux f (a + 1) (r' + 1)).1,
            (a + 1) * 2 :: (retryAux f (a + 1) (r' + 1)).2)) = _
        exact if_neg hr
      rw [hstep, hrec]
      simp only [Nat.add_sub_cancel, List.range_succ_eq_map, List.map_cons, List.map_map]
      refine congrArg (Prod.mk none) (congrArg₂ List.cons (by ring) ?_)
      refine List.map_congr_left (fun i _ => ?_)
      simp only [Function.comp_apply, Nat.succ_eq_add_one]
      ring

theorem retryAux_otherErr {α : Type} (f : Nat → FetchTry α) (m a : Nat)
    (hm : 0 < m) (h : f a = .otherErr) : retryAux f a m = (none, []) := by
  obtain ⟨r, rfl⟩ : ∃ r, m = r + 1 := ⟨m - 1, by omega⟩
  simp [retryAux, h]

/-- C4: exhausted-retry degradation. A connection error on every attempt up
to the retry ceiling makes either per-section fetcher return none (no
exception propagates) after the linearly increasing waits 2, 4, ...; any
other failure is non-retryable and yields none at once; and a pending
section whose two fetches both return none still gets its row written with
both vote fields empty, with exactly one errors_list entry for its key. -/
theorem retry_exhaustion_degradation :
    (∀ (f : Nat → FetchTry Scrutini) (m : Nat), 0 < m → (∀ i, i < m → f i = .connErr) →
      get_scrutini_sezione f m = (none, (List.range (m - 1)).map (fun i => (i + 1) * 2))) ∧
    (∀ (f : Nat → FetchTry Prefe) (m : Nat), 0 < m → (∀ i, i < m → f i = .connErr) →
      get_preferenze_sezione f m = (none, (List.range (m - 1)).map (fun i => (i + 1) * 2))) ∧
    (∀ (f : Nat → FetchTry Scrutini) (m : Nat), 0 < m → f 0 = .otherErr →
      get_scrutini_sezione f m = (none, [])) ∧
    (∀ (f : Nat → FetchTry Prefe) (m : Nat), 0 < m → f 0 = .otherErr →
      get_preferenze_sezione f m = (none, [])) ∧
    (∀ (π : ProvMap) (proc : List String)
      (fS : String → String → String → Option Scrutini)
      (fP : String → String → String → Option Prefe) (k : String),
      ((pendingSections π proc).map secKey).count k = 1 →
      (∀ s ∈ pendingSections π proc, secKey s = k →
        fS s.cod_prov s.cod_com s.num = none ∧ fP s.cod_prov s.cod_com s.num = none) →
      (∀ r ∈ crawlRows π proc fS fP, rowKey r = k →
         r.voti_lega = none ∧ r.preferenze_zaia = none) ∧
      ((crawlRows π proc fS fP).filter (fun r => rowKey r == k)).length = 1 ∧
      (crawlErrors π proc fS fP).count k = 1) := by
  have hconnGen : ∀ (α : Type) (f : Nat → FetchTry α) (m : Nat), 0 < m →
      (∀ i, i < m → f i = .connErr) →
      retryAux f 0 m = (none, (List.range (m - 1)).map (fun i => (i + 1) * 2)) := by
    intro α f m hm hc
    have := retryAux_allConn f m 0 hm (fun i hi => hc i (by omega))
    simpa using this
  refine ⟨fun f m hm hc => hconnGen _ f m hm hc,
          fun f m hm hc => hconnGen _ f m hm hc,
          fun f m hm h => retryAux_otherErr f m 0 hm h,
          fun f m hm h => retryAux_otherErr f m 0 hm h,
          ?_⟩
  intro π proc fS fP k hcount hfail
  have hcount' : ((pendingSections π proc).filter (fun s => secKey s == k)).length = 1 := by
    rw [List.count_eq_countP] at hcount
    rw [List.countP_map] at hcount
    rw [List.countP_eq_length_filter] at hcount
    exact hcount
  refine ⟨?_, ?_, ?_⟩
  · intro r hr hk
    obtain ⟨s, hs, rfl⟩ := List.mem_map.1 hr
    have hkey : secKey s = k := hk
    obtain ⟨h1, h2⟩ := hfail s hs hkey
    constructor
    · show extract_voti_lega (fS s.cod_prov s.cod_com s.num) = none
      rw [h1]
      rfl
    · show extract_preferenze_zaia (fP s.cod_prov s.cod_com s.num) = none
      rw [h2]
      rfl
  · unfold crawlRows
    rw [List.filter_map]
    rw [List.length_map]
    exact hcount'
  · unfold crawlErrors crawlRows
    rw [List.filter_map, List.map_map]
    have hmk : ∀ l : List SecEntry, l.map (rowKey ∘ mkRow fS fP) = l.map secKey := by
      intro l
      rfl
    rw [hmk]
    rw [List.count_eq_countP, List.countP_map, List.countP_eq_length_filter]
    rw [List.filter_filter]
    have hcg : (pendingSections π proc).filter
        (fun a => ((fun x => x == k) ∘ secKey) a && (rowFailed ∘ mkRow fS fP) a) =
        (pendingSections π proc).filter (fun s => secKey s == k) := by
      apply List.filter_congr
      intro s hs
      simp only [Function.comp_apply]
      by_cases hk : secKey s = k
      · obtain ⟨h1, h2⟩ := hfail s hs hk
        have hfailed : rowFailed (mkRow fS fP s) = true := by
          unfold rowFailed mkRow
          rw [h1]
          rfl
        simp [hk, hfailed]
      · simp [hk]
    rw [hcg]
    exact hcount'

/-- C4 witness: three exhausted/failed fetches at the ceiling 3, and a
one-section hierarchy whose fetches both fail: both row fields empty is
implied by the single failure entry counted for its key. -/
theorem retry_exhaustion_degradation_w :
    get_scrutini_sezione (fun _ => FetchTry.connErr) 3 = (none, [2, 4]) ∧
    get_preferenze_sezione (fun _ => FetchTry.connErr) 3 = (none, [2, 4]) ∧
    get_scrutini_sezione (fun _ => FetchTry.otherErr) 3 = (none, []) ∧
    (crawlErrors
        [("VENEZIA", ⟨"087", "0508700000000",
          [("Venezia", ⟨"0420", "087", "0508704200000", [⟨"0001", "0508704200001"⟩]⟩)]⟩)]
        [] (fun _ _ _ => none) (fun _ _ _ => none)).count "087/0420/0001" = 1 := by
  refine ⟨?_, ?_, ?_, ?_⟩
  · have h := retry_exhaustion_degradation.1 (fun _ => FetchTry.connErr) 3 (by decide)
      (fun i _ => rfl)
    rw [h]
    decide
  · have h := retry_exhaustion_degradation.2.1 (fun _ => FetchTry.connErr) 3 (by decide)
      (fun i _ => rfl)
    rw [h]
    decide
  · exact retry_exhaustion_degradation.2.2.1 (fun _ => FetchTry.otherErr) 3 (by decide) rfl
  · exact (retry_exhaustion_degradation.2.2.2.2
      [("VENEZIA", ⟨"087", "0508700000000",
        [("Venezia", ⟨"0420", "087", "0508704200000", [⟨"0001", "0508704200001"⟩]⟩)]⟩)]
      [] (fun _ _ _ => none) (fun _ _ _ => none) "087/0420/0001"
      (by decide) (fun s _ _ => ⟨rfl, rfl⟩)).2.2

/- ================== association-list lemmas ================== -/

theorem alLookup_insert_self {α : Type} (q : String) (v : α) (l : List (String × α)) :
    alLookup (alInsert q v l) q = some v := by
  induction l with
  | nil => simp [alInsert, alLookup]
  | cons p t ih =>
    obtain ⟨k, w⟩ := p
    by_cases h : k = q
    · simp [alInsert, h, alLookup]
    · simp [alInsert, h, alLookup, ih]

theorem alInsert_of_not_mem {α : Type} (q : String) (v : α) (l : List (String × α))
    (h : q ∉ alKeys l) : alInsert q v l = l ++ [(q, v)] := by
  induction l with
  | nil => rfl
  | cons p t ih =>
    obtain ⟨k, w⟩ := p
    simp only [alKeys, List.map_cons, List.mem_cons] at h
    push_neg at h
    have hk : ¬ (k = q) := fun he => h.1 he.symm
    simp only [alInsert, if_neg hk, List.cons_append]
    rw [ih (by simpa [alKeys] using h.2)]

theorem alLookup_append_right {α : Type} (l m : List (String × α)) (q : String)
    (h : q ∉ alKeys l) : alLookup (l ++ m) q = alLookup m q := by
  induction l with
  | nil => rfl
  | cons p t ih =>
    obtain ⟨k, w⟩ := p
    simp only [alKeys, List.map_cons, List.mem_cons] at h
    push_neg at h
    have hk : ¬ (k = q) := fun he => h.1 he.symm
    simp only [List.cons_append, alLookup, if_neg hk]
    exact ih (by simpa [alKeys] using h.2)

theorem alUpdate_append_right {α : Type} (l m : List (String × α)) (q : String) (f : α → α)
    (h : q ∉ alKeys l) : alUpdate q f (l ++ m) = l ++ alUpdate q f m := by
  induction l with
  | nil => rfl
  | cons p t ih =>
    obtain ⟨k, w⟩ := p
    simp only [alKeys, List.map_cons, List.mem_cons] at h
    push_neg at h
    have hk : ¬ (k = q) := fun he => h.1 he.symm
    simp only [List.cons_append, alUpdate, if_neg hk]
    exact congrArg (List.cons (k, w)) (ih (by simpa [alKeys] using h.2))

theorem alUpdate_comp {α : Type} (q : String) (f g : α → α) (l : List (String × α)) :
    alUpdate q f (alUpdate q g l) = alUpdate q (fun v => f (g v)) l := by
  induction l with
  | nil => rfl
  | cons p t ih =>
    obtain ⟨k, w⟩ := p
    by_cases h : k = q
    · simp [alUpdate, h]
    · simp [alUpdate, h, ih]

theorem alUpdate_id {α : Type} (q : String) (l : List (String × α)) :
    alUpdate q (fun v => v) l = l := by
  induction l with
  | nil => rfl
  | cons p t ih =>
    obtain ⟨k, w⟩ := p
    by_cases h : k = q
    · simp [alUpdate, h]
    · simp [alUpdate, h, ih]

theorem alLookup_update_self {α : Type} (q : String) (f : α → α) (l : List (String × α)) :
    alLookup (alUpdate q f l) q = (alLookup l q).map f := by
  induction l with
  | nil => rfl
  | cons p t ih =>
    obtain ⟨k, w⟩ := p
    by_cases h : k = q
    · simp [alUpdate, h, alLookup]
    · simp [alUpdate, h, alLookup, ih]

theorem alKeys_update {α : Type} (q : String) (f : α → α) (l : List (String × α)) :
    alKeys (alUpdate q f l) = alKeys l := by
  induction l with
  | nil => rfl
  | cons p t ih =>
    obtain ⟨k, w⟩ := p
    by_cases h : k = q
    · simp [alUpdate, h, alKeys]
    · simp only [alUpdate, if_neg h]
      simp [alKeys] at ih ⊢
      exact ih

theorem alLookup_isSome_of_mem {α : Type} (l : List (String × α)) (q : String)
    (h : q ∈ alKeys l) : (alLookup l q).isSome := by
  induction l with
  | nil => simp [alKeys] at h
  | cons p t ih =>
    obtain ⟨k, w⟩ := p
    by_cases hk : k = q
    · simp [alLookup, hk]
    · simp only [alKeys, List.map_cons, List.mem_cons] at h
      rcases h with h | h
      · exact absurd h.symm hk
      · simp only [alLookup, if_neg hk]
        exact ih (by simpa [alKeys] using h)

theorem alLookup_snoc_self {α : Type} (l : List (String × α)) (q : String) (v : α)
    (h : q ∉ alKeys l) : alLookup (l ++ [(q, v)]) q = some v := by
  rw [alLookup_append_right l _ q h]
  simp [alLookup]
    

/- ================== buildStep branch lemmas ================== -/

theorem buildStep_RE (s : BState) (e : Ente) (ht : e.tipo = "RE") (hl : e.cod.length = 13) :
    buildStep s e = s := by
  unfold buildStep
  rw [parse_of_len13 e.cod hl, ht]
  simp

theorem buildStep_PR (s : BState) (e : Ente) (ht : e.tipo = "PR") (hl : e.cod.length = 13) :
    buildStep s e = { s with
      cur_prov := some e.desc,
      province := alInsert e.desc ⟨strSlice e.cod 2 5, e.cod, []⟩ s.province } := by
  unfold buildStep
  rw [parse_of_len13 e.cod hl, ht]
  simp

theorem buildStep_CM_attach (s : BState) (e : Ente) (p : String)
    (ht : e.tipo = "CM") (hl : e.cod.length = 13)
    (hp : s.cur_prov = some p) (hpne : p ≠ "")
    (hmem : (alLookup s.province p).isSome) :
    buildStep s e = { s with
      cur_com := some e.desc,
      province := (alUpdate p (fun pd => { pd with comuni := alInsert e.desc ⟨strSlice e.cod 5 9, strSlice e.cod 2 5, e.cod, []⟩ pd.comuni }) s.province) } := by
  unfold buildStep
  rw [parse_of_len13 e.cod hl, ht, hp]
  simp [hpne, hmem]

theorem buildStep_CM_noprov (s : BState) (e : Ente)
    (ht : e.tipo = "CM") (hl : e.cod.length = 13) (hp : s.cur_prov = none) :
    buildStep s e = { s with cur_com := some e.desc } := by
  unfold buildStep
  rw [parse_of_len13 e.cod hl, ht, hp]
  simp

theorem buildStep_SZ_attach (s : BState) (e : Ente) (p c : String) (pd : ProvData)
    (ht : e.tipo = "SZ") (hl : e.cod.length = 13)
    (hp : s.cur_prov = some p) (hc : s.cur_com = some c)
    (hpne : p ≠ "") (hcne : c ≠ "")
    (hlook : alLookup s.province p = some pd)
    (hmem : (alLookup pd.comuni c).isSome) :
    buildStep s e = { s with province := (alUpdate p (fun pd2 => { pd2 with comuni := alUpdate c (fun cd => { cd with sezioni := cd.sezioni ++ [mkSezEntry e] }) pd2.comuni }) s.province) } := by
  unfold buildStep
  rw [parse_of_len13 e.cod hl, ht, hp, hc]
  simp [hpne, hcne, hlook, hmem, mkSezEntry]

theorem buildStep_SZ_noprov (s : BState) (e : Ente)
    (ht : e.tipo = "SZ") (hl : e.cod.length = 13) (hp : s.cur_prov = none) :
    buildStep s e = s := by
  unfold buildStep
  rw [parse_of_len13 e.cod hl, ht, hp]
  simp

theorem buildStep_SZ_nocom (s : BState) (e : Ente)
    (ht : e.tipo = "SZ") (hl : e.cod.length = 13) (hc : s.cur_com = none) :
    buildStep s e = s := by
  unfold buildStep
  rw [parse_of_len13 e.cod hl, ht, hc]
  rcases hp : s.cur_prov with _ | p <;> simp

theorem buildStep_SZ_emptyname (s : BState) (e : Ente) (p c : String)
    (ht : e.tipo = "SZ") (hl : e.cod.length = 13)
    (hp : s.cur_prov = some p) (hc : s.cur_com = some c) (hec : p = "" ∨ c = "") :
    buildStep s e = s := by
  unfold buildStep
  rw [parse_of_len13 e.cod hl, ht, hp, hc]
  rcases hec with he | he <;> simp [he]

theorem buildStep_SZ_nolook (s : BState) (e : Ente) (p c : String)
    (ht : e.tipo = "SZ") (hl : e.cod.length = 13)
    (hp : s.cur_prov = some p) (hc : s.cur_com = some c)
    (hlook : alLookup s.province p = none) :
    buildStep s e = s := by
  unfold buildStep
  rw [parse_of_len13 e.cod hl, ht, hp, hc]
  by_cases hpne : p = "" <;> by_cases hcne : c = "" <;> simp [hpne, hcne, hlook]

theorem buildStep_SZ_commiss (s : BState) (e : Ente) (p c : String) (pd : ProvData)
    (ht : e.tipo = "SZ") (hl : e.cod.length = 13)
    (hp : s.cur_prov = some p) (hc : s.cur_com = some c)
    (hlook : alLookup s.province p = some pd)
    (hmem : alLookup pd.comuni c = none) :
    buildStep s e = s := by
  unfold buildStep
  rw [parse_of_len13 e.cod hl, ht, hp, hc]
  by_cases hpne : p = "" <;> by_cases hcne : c = "" <;> simp [hpne, hcne, hlook, hmem]

/- ================== pointer and fold lemmas ================== -/

theorem buildAux_append (s : BState) (l m : List Ente) :
    buildAux s (l ++ m) = buildAux (buildAux s l) m := by
  induction l generalizing s with
  | nil => rfl
  | cons e t ih => simp [buildAux, ih]

theorem parse_some_length (e : Ente) (parsed : Codice13)
    (hp : parse_codice_13 e.cod = some parsed) : e.cod.length = 13 := by
  by_contra hne
  rw [(parse_eq_none_iff e.cod).2 hne] at hp
  exact Option.noConfusion hp

theorem buildStep_cur_prov (s : BState) (e : Ente) :
    (buildStep s e).cur_prov = if isValidPR e then some e.desc else s.cur_prov := by
  rcases hp : parse_codice_13 e.cod with _ | parsed
  · have hne : e.cod.length ≠ 13 := (parse_eq_none_iff e.cod).1 hp
    have hv : ¬ isValidPR e = true := by simp [isValidPR, hne]
    unfold buildStep
    rw [hp, if_neg hv]
  · have hlen : e.cod.length = 13 := parse_some_length e parsed hp
    by_cases hpr : e.tipo = "PR"
    · have hv : isValidPR e = true := by simp [isValidPR, hpr, hlen]
      rw [buildStep_PR s e hpr hlen, if_pos hv]
    · have hv : ¬ isValidPR e = true := by simp [isValidPR, hpr]
      rw [if_neg hv]
      unfold buildStep
      rw [hp]
      simp only [if_neg hpr]
      split
      · rfl
      · repeat' split
        all_goals rfl

theorem buildStep_cur_com (s : BState) (e : Ente) :
    (buildStep s e).cur_com = if isValidCM e then some e.desc else s.cur_com := by
  rcases hp : parse_codice_13 e.cod with _ | parsed
  · have hne : e.cod.length ≠ 13 := (parse_eq_none_iff e.cod).1 hp
    have hv : ¬ isValidCM e = true := by simp [isValidCM, hne]
    unfold buildStep
    rw [hp, if_neg hv]
  · have hlen : e.cod.length = 13 := parse_some_length e parsed hp
    by_cases hcm : e.tipo = "CM"
    · have hv : isValidCM e = true := by simp [isValidCM, hcm, hlen]
      rw [if_pos hv]
      unfold buildStep
      rw [hp]
      have hre : ¬ e.tipo = "RE" := by rw [hcm]; decide
      have hpr : ¬ e.tipo = "PR" := by rw [hcm]; decide
      simp only [if_neg hre, if_neg hpr, if_pos hcm]
      repeat' split
      all_goals rfl
    · have hv : ¬ isValidCM e = true := by simp [isValidCM, hcm]
      rw [if_neg hv]
      unfold buildStep
      rw [hp]
      simp only [if_neg hcm]
      repeat' split
      all_goals rfl

theorem alUpdate_congr {α : Type} (q : String) (f g : α → α) (l : List (String × α))
    (h : ∀ v, alLookup l q = some v → f v = g v) :
    alUpdate q f l = alUpdate q g l := by
  induction l with
  | nil => rfl
  | cons p t ih =>
    obtain ⟨k, w⟩ := p
    by_cases hk : k = q
    · have hw : f w = g w := h w (by simp [alLookup, hk])
      simp [alUpdate, hk, hw]
    · simp only [alUpdate, if_neg hk, List.cons.injEq, true_and]
      exact ih (fun v hv => h v (by simpa [alLookup, hk] using hv))

theorem buildAux_cur_prov (enti : List Ente) : ∀ s : BState,
    (buildAux s enti).cur_prov =
      enti.foldl (fun a e => if isValidPR e then some e.desc else a) s.cur_prov := by
  induction enti with
  | nil => intro s; rfl
  | cons e t ih =>
    intro s
    show (buildAux (buildStep s e) t).cur_prov = _
    rw [ih (buildStep s e), List.foldl_cons, buildStep_cur_prov]

theorem buildAux_cur_com (enti : List Ente) : ∀ s : BState,
    (buildAux s enti).cur_com =
      enti.foldl (fun a e => if isValidCM e then some e.desc else a) s.cur_com := by
  induction enti with
  | nil => intro s; rfl
  | cons e t ih =>
    intro s
    show (buildAux (buildStep s e) t).cur_com = _
    rw [ih (buildStep s e), List.foldl_cons, buildStep_cur_com]

theorem foldl_lastPR_map (enti : List Ente) : ∀ a : Option Ente,
    enti.foldl (fun x e => if isValidPR e then some e.desc else x) (a.map Ente.desc) =
      (enti.foldl (fun x e => if isValidPR e then some e else x) a).map Ente.desc := by
  induction enti with
  | nil => intro a; rfl
  | cons e t ih =>
    intro a
    rw [List.foldl_cons, List.foldl_cons]
    by_cases h : isValidPR e
    · rw [if_pos h, if_pos h]
      exact ih (some e)
    · rw [if_neg h, if_neg h]
      exact ih a

theorem foldl_lastCM_map (enti : List Ente) : ∀ a : Option Ente,
    enti.foldl (fun x e => if isValidCM e then some e.desc else x) (a.map Ente.desc) =
      (enti.foldl (fun x e => if isValidCM e then some e else x) a).map Ente.desc := by
  induction enti with
  | nil => intro a; rfl
  | cons e t ih =>
    intro a
    rw [List.foldl_cons, List.foldl_cons]
    by_cases h : isValidCM e
    · rw [if_pos h, if_pos h]
      exact ih (some e)
    · rw [if_neg h, if_neg h]
      exact ih a

theorem build_cur_prov (enti : List Ente) :
    (buildAux initBState enti).cur_prov = (lastValidPR enti).map Ente.desc := by
  rw [buildAux_cur_prov enti initBState]
  exact foldl_lastPR_map enti none

theorem build_cur_com (enti : List Ente) :
    (buildAux initBState enti).cur_com = (lastValidCM enti).map Ente.desc := by
  rw [buildAux_cur_com enti initBState]
  exact foldl_lastCM_map enti none

/-- C2 counterexample: the pre-order-violating input [municipality, province,
section]. The claim says the section record (not seen before a municipality
record nor before a province record) attaches to the most recently seen
municipality under the most recently seen province; the code instead drops
it, leaving the built province with no municipalities at all. -/
theorem build_order_cex :
    build_mapping_from_anagrafica
      [Ente.mk "CM" "VENEZIA" "0508704200000",
       Ente.mk "PR" "VENEZIA PROV" "0508700000000",
       Ente.mk "SZ" "SEZ" "0508704200001"] =
      [("VENEZIA PROV", ⟨"087", "0508700000000", []⟩)] := by
  decide

/-- C2 amended: the builder ignores region records and records with
non-13-character codes entirely; it drops a section record when no valid
municipality (or no valid province) record precedes it, and a municipality
record preceding any valid province record adds nothing to the mapping;
every other valid section record is attached to the province and
municipality named by the most recently seen valid province/municipality
records — provided both names are nonempty and that municipality name is
currently present under that province in the accumulated mapping — and is
dropped otherwise. -/
theorem build_order_semantics (enti : List Ente) (e : Ente) :
    (e.tipo = "RE" → e.cod.length = 13 →
      buildAux initBState (enti ++ [e]) = buildAux initBState enti) ∧
    (e.tipo = "SZ" → e.cod.length = 13 → lastValidCM enti = none →
      build_mapping_from_anagrafica (enti ++ [e]) = build_mapping_from_anagrafica enti) ∧
    (e.tipo = "SZ" → e.cod.length = 13 → lastValidPR enti = none →
      build_mapping_from_anagrafica (enti ++ [e]) = build_mapping_from_anagrafica enti) ∧
    (e.tipo = "CM" → e.cod.length = 13 → lastValidPR enti = none →
      build_mapping_from_anagrafica (enti ++ [e]) = build_mapping_from_anagrafica enti) ∧
    (∀ pr cm : Ente, e.tipo = "SZ" → e.cod.length = 13 →
      lastValidPR enti = some pr → lastValidCM enti = some cm →
      (pr.desc = "" ∨ cm.desc = "" →
        build_mapping_from_anagrafica (enti ++ [e]) = build_mapping_from_anagrafica enti) ∧
      (pr.desc ≠ "" → cm.desc ≠ "" →
        (alLookup (build_mapping_from_anagrafica enti) pr.desc = none →
          build_mapping_from_anagrafica (enti ++ [e]) = build_mapping_from_anagrafica enti) ∧
        (∀ pd : ProvData,
          alLookup (build_mapping_from_anagrafica enti) pr.desc = some pd →
          ((alLookup pd.comuni cm.desc).isSome →
            build_mapping_from_anagrafica (enti ++ [e]) =
              alUpdate pr.desc (fun pd2 => { pd2 with comuni := alUpdate cm.desc (fun cd => { cd with sezioni := cd.sezioni ++ [mkSezEntry e] }) pd2.comuni }) (build_mapping_from_anagrafica enti)) ∧
          (alLookup pd.comuni cm.desc = none →
            build_mapping_from_anagrafica (enti ++ [e]) =
              build_mapping_from_anagrafica enti)))) := by
  have hsplit : buildAux initBState (enti ++ [e]) =
      buildStep (buildAux initBState enti) e := by
    rw [buildAux_append]
    rfl
  refine ⟨?_, ?_, ?_, ?_, ?_⟩
  · intro ht hl
    rw [hsplit, buildStep_RE _ e ht hl]
  · intro ht hl hcm
    unfold build_mapping_from_anagrafica
    rw [hsplit, buildStep_SZ_nocom _ e ht hl (by rw [build_cur_com, hcm]; rfl)]
  · intro ht hl hpr
    unfold build_mapping_from_anagrafica
    rw [hsplit, buildStep_SZ_noprov _ e ht hl (by rw [build_cur_prov, hpr]; rfl)]
  · intro ht hl hpr
    unfold build_mapping_from_anagrafica
    rw [hsplit, buildStep_CM_noprov _ e ht hl (by rw [build_cur_prov, hpr]; rfl)]
  · intro pr cm ht hl hpr hcm
    have hp : (buildAux initBState enti).cur_prov = some pr.desc := by
      rw [build_cur_prov, hpr]; rfl
    have hc : (buildAux initBState enti).cur_com = some cm.desc := by
      rw [build_cur_com, hcm]; rfl
    constructor
    · intro hemp
      unfold build_mapping_from_anagrafica
      rw [hsplit, buildStep_SZ_emptyname _ e pr.desc cm.desc ht hl hp hc hemp]
    · intro hpne hcne
      constructor
      · intro hnolook
        unfold build_mapping_from_anagrafica
        rw [hsplit, buildStep_SZ_nolook _ e pr.desc cm.desc ht hl hp hc hnolook]
      · intro pd hlook
        constructor
        · intro hmem
          unfold build_mapping_from_anagrafica
          rw [hsplit, buildStep_SZ_attach _ e pr.desc cm.desc pd ht hl hp hc hpne hcne hlook hmem]
        · intro hmiss
          unfold build_mapping_from_anagrafica
          rw [hsplit, buildStep_SZ_commiss _ e pr.desc cm.desc pd ht hl hp hc hlook hmiss]

/-- C2 amended witness: a region record is a no-op, and in the well-ordered
list [province P, comune C, section] the section is appended under C in P. -/
theorem build_order_semantics_w :
    buildAux initBState [Ente.mk "RE" "VENETO" "0500000000000"] = buildAux initBState [] ∧
    build_mapping_from_anagrafica
      [Ente.mk "PR" "P" "0508700000000", Ente.mk "CM" "C" "0508704200000",
       Ente.mk "SZ" "S" "0508704200001"] =
      alUpdate "P" (fun pd2 => { pd2 with comuni := alUpdate "C" (fun cd => { cd with sezioni := cd.sezioni ++ [mkSezEntry (Ente.mk "SZ" "S" "0508704200001")] }) pd2.comuni })
        (build_mapping_from_anagrafica
          [Ente.mk "PR" "P" "0508700000000", Ente.mk "CM" "C" "0508704200000"]) := by
  constructor
  · exact (build_order_semantics [] (Ente.mk "RE" "VENETO" "0500000000000")).1 rfl (by decide)
  · exact ((((build_order_semantics
      [Ente.mk "PR" "P" "0508700000000", Ente.mk "CM" "C" "0508704200000"]
      (Ente.mk "SZ" "S" "0508704200001")).2.2.2.2
      (Ente.mk "PR" "P" "0508700000000") (Ente.mk "CM" "C" "0508704200000")
      rfl (by decide) (by decide) (by decide)).2 (by decide) (by decide)).2
      ⟨"087", "0508700000000", [("C", ⟨"0420", "087", "0508704200000", []⟩)]⟩
      (by decide)).1 (by decide)

/- ================== pre-order block lemmas ================== -/

theorem buildAux_sez_block (szs : List Ente) : ∀ (s : BState) (P C : String) (pd : ProvData),
    (∀ e ∈ szs, e.tipo = "SZ" ∧ e.cod.length = 13) →
    s.cur_prov = some P → s.cur_com = some C → P ≠ "" → C ≠ "" →
    alLookup s.province P = some pd → (alLookup pd.comuni C).isSome →
    buildAux s szs = { s with province := (alUpdate P (fun pd2 => { pd2 with comuni := alUpdate C (fun cd => { cd with sezioni := cd.sezioni ++ szs.map mkSezEntry }) pd2.comuni }) s.province) } := by
  induction szs with
  | nil =>
    intro s P C pd _ _ _ _ _ _ _
    have h1 : (fun cd : ComData => { cd with sezioni := cd.sezioni ++ ([] : List Ente).map mkSezEntry }) = fun cd => cd := by
      funext cd
      simp
    show s = _
    rw [h1]
    simp only [alUpdate_id]
  | cons sz rest ih =>
    intro s P C pd hwf hp hc hpne hcne hlook hmem
    obtain ⟨ht, hl⟩ := hwf sz (by simp)
    show buildAux (buildStep s sz) rest = _
    rw [buildStep_SZ_attach s sz P C pd ht hl hp hc hpne hcne hlook hmem]
    have hlk : alLookup (alUpdate P (fun pd2 => { pd2 with comuni := alUpdate C (fun cd => { cd with sezioni := cd.sezioni ++ [mkSezEntry sz] }) pd2.comuni }) s.province) P = some { pd with comuni := alUpdate C (fun cd => { cd with sezioni := cd.sezioni ++ [mkSezEntry sz] }) pd.comuni } := by
      rw [alLookup_update_self, hlook]
      rfl
    have hmm2 : (alLookup ({ pd with comuni := alUpdate C (fun cd => { cd with sezioni := cd.sezioni ++ [mkSezEntry sz] }) pd.comuni } : ProvData).comuni C).isSome := by
      show (alLookup (alUpdate C _ pd.comuni) C).isSome
      rw [alLookup_update_self]
      rcases hx : alLookup pd.comuni C with _ | cd
      · rw [hx] at hmem
        exact absurd hmem (by simp)
      · simp
    rw [ih { s with province := alUpdate P (fun pd2 => { pd2 with comuni := alUpdate C (fun cd => { cd with sezioni := cd.sezioni ++ [mkSezEntry sz] }) pd2.comuni }) s.province } P C { pd with comuni := alUpdate C (fun cd => { cd with sezioni := cd.sezioni ++ [mkSezEntry sz] }) pd.comuni } (fun x hx => hwf x (by simp [hx])) hp hc hpne hcne hlk hmm2]
    show { s with province := alUpdate P _ (alUpdate P _ s.province) } = _
    rw [alUpdate_comp]
    congr 1
    refine congrArg (fun f => alUpdate P f s.province) (funext fun x => ?_)
    show ({ x with comuni := alUpdate C (fun cd => { cd with sezioni := cd.sezioni ++ rest.map mkSezEntry }) (alUpdate C (fun cd => { cd with sezioni := cd.sezioni ++ [mkSezEntry sz] }) x.comuni) } : ProvData) = _
    rw [alUpdate_comp]
    refine congrArg (fun cl => ({ x with comuni := cl } : ProvData)) ?_
    refine congrArg (fun g => alUpdate C g x.comuni) (funext fun cd => ?_)
    show ({ cd with sezioni := (cd.sezioni ++ [mkSezEntry sz]) ++ rest.map mkSezEntry } : ComData) = _
    rw [List.append_assoc]
    rfl

theorem buildAux_com_block (cbs : List ComB) : ∀ (s : BState) (P : String) (pd : ProvData),
    (∀ cb ∈ cbs, WFCom cb) →
    (cbs.map (fun cb => cb.comEnte.desc)).Nodup →
    (∀ cb ∈ cbs, cb.comEnte.desc ∉ alKeys pd.comuni) →
    s.cur_prov = some P → P ≠ "" →
    alLookup s.province P = some pd →
    ∃ cc, buildAux s (cbs.flatMap flattenCom) =
      { s with cur_com := cc, province := (alUpdate P (fun pd2 => { pd2 with comuni := pd2.comuni ++ cbs.map (fun cb => (cb.comEnte.desc, mkComData cb.comEnte cb.sezEnti)) }) s.province) } := by
  induction cbs with
  | nil =>
    intro s P pd _ _ _ _ _ _
    refine ⟨s.cur_com, ?_⟩
    show s = _
    have h1 : (fun pd2 : ProvData => { pd2 with comuni := pd2.comuni ++ ([] : List ComB).map (fun cb => (cb.comEnte.desc, mkComData cb.comEnte cb.sezEnti)) }) = fun pd2 => pd2 := by
      funext pd2
      simp
    rw [h1, alUpdate_id]
  | cons cb rest ih =>
    intro s P pd hwf hnd hfresh hp hpne hlook
    obtain ⟨htc, hlc, hdc, hsz⟩ := hwf cb (by simp)
    have hfreshcb : cb.comEnte.desc ∉ alKeys pd.comuni := hfresh cb (by simp)
    have hnd1 : cb.comEnte.desc ∉ rest.map (fun cb' => cb'.comEnte.desc) := by
      rw [List.map_cons, List.nodup_cons] at hnd
      exact hnd.1
    have hnd2 : (rest.map (fun cb' => cb'.comEnte.desc)).Nodup := by
      rw [List.map_cons, List.nodup_cons] at hnd
      exact hnd.2
    have hstep1 : buildAux s ((cb :: rest).flatMap flattenCom) =
        buildAux (buildStep s cb.comEnte) (cb.sezEnti ++ rest.flatMap flattenCom) := by
      rw [List.flatMap_cons]
      rfl
    have hCM := buildStep_CM_attach s cb.comEnte P htc hlc hp hpne (by rw [hlook]; rfl)
    have hlk1 : alLookup (alUpdate P (fun pd2 => { pd2 with comuni := alInsert cb.comEnte.desc ⟨strSlice cb.comEnte.cod 5 9, strSlice cb.comEnte.cod 2 5, cb.comEnte.cod, []⟩ pd2.comuni }) s.province) P = some { pd with comuni := alInsert cb.comEnte.desc ⟨strSlice cb.comEnte.cod 5 9, strSlice cb.comEnte.cod 2 5, cb.comEnte.cod, []⟩ pd.comuni } := by
      rw [alLookup_update_self, hlook]
      rfl
    have hmem1 : (alLookup ({ pd with comuni := alInsert cb.comEnte.desc ⟨strSlice cb.comEnte.cod 5 9, strSlice cb.comEnte.cod 2 5, cb.comEnte.cod, []⟩ pd.comuni } : ProvData).comuni cb.comEnte.desc).isSome := by
      show (alLookup (alInsert _ _ pd.comuni) _).isSome
      rw [alLookup_insert_self]
      rfl
    have hsez := buildAux_sez_block cb.sezEnti { s with cur_com := some cb.comEnte.desc, province := (alUpdate P (fun pd2 => { pd2 with comuni := alInsert cb.comEnte.desc ⟨strSlice cb.comEnte.cod 5 9, strSlice cb.comEnte.cod 2 5, cb.comEnte.cod, []⟩ pd2.comuni }) s.province) } P cb.comEnte.desc { pd with comuni := alInsert cb.comEnte.desc ⟨strSlice cb.comEnte.cod 5 9, strSlice cb.comEnte.cod 2 5, cb.comEnte.cod, []⟩ pd.comuni } hsz hp rfl hpne hdc hlk1 hmem1
    have hval : alUpdate cb.comEnte.desc (fun cd => { cd with sezioni := cd.sezioni ++ cb.sezEnti.map mkSezEntry }) (alInsert cb.comEnte.desc (⟨strSlice cb.comEnte.cod 5 9, strSlice cb.comEnte.cod 2 5, cb.comEnte.cod, []⟩ : ComData) pd.comuni) = pd.comuni ++ [(cb.comEnte.desc, mkComData cb.comEnte cb.sezEnti)] := by
      rw [alInsert_of_not_mem _ _ _ hfreshcb, alUpdate_append_right _ _ _ _ hfreshcb]
      simp [alUpdate, mkComData]
    have hpd : ProvData.mk pd.cod_api pd.cod_raw (alUpdate cb.comEnte.desc (fun cd => { cd with sezioni := cd.sezioni ++ cb.sezEnti.map mkSezEntry }) (alInsert cb.comEnte.desc ⟨strSlice cb.comEnte.cod 5 9, strSlice cb.comEnte.cod 2 5, cb.comEnte.cod, []⟩ pd.comuni)) = { pd with comuni := pd.comuni ++ [(cb.comEnte.desc, mkComData cb.comEnte cb.sezEnti)] } := by
      rw [hval]
    have hlk2 : alLookup (alUpdate P (fun pd2 => { pd2 with comuni := alUpdate cb.comEnte.desc (fun cd => { cd with sezioni := cd.sezioni ++ cb.sezEnti.map mkSezEntry }) pd2.comuni }) (alUpdate P (fun pd2 => { pd2 with comuni := alInsert cb.comEnte.desc ⟨strSlice cb.comEnte.cod 5 9, strSlice cb.comEnte.cod 2 5, cb.comEnte.cod, []⟩ pd2.comuni }) s.province)) P = some { pd with comuni := pd.comuni ++ [(cb.comEnte.desc, mkComData cb.comEnte cb.sezEnti)] } := by
      rw [alLookup_update_self, alLookup_update_self, hlook]
      show some _ = some _
      exact congrArg some hpd
    have hfreshN : ∀ cb' ∈ rest, cb'.comEnte.desc ∉ alKeys ({ pd with comuni := pd.comuni ++ [(cb.comEnte.desc, mkComData cb.comEnte cb.sezEnti)] } : ProvData).comuni := by
      intro cb' hcb'
      have h1 := hfresh cb' (by simp [hcb'])
      have h2 : cb'.comEnte.desc ≠ cb.comEnte.desc := by
        intro he
        exact hnd1 (he ▸ List.mem_map_of_mem _ hcb')
      show cb'.comEnte.desc ∉ alKeys (pd.comuni ++ _)
      simp only [alKeys, List.map_append, List.mem_append] at h1 ⊢
      rintro (hin | hin)
      · exact h1 hin
      · simp at hin
        exact h2 hin
    obtain ⟨cc, hrest⟩ := ih { s with cur_com := some cb.comEnte.desc, province := (alUpdate P (fun pd2 => { pd2 with comuni := alUpdate cb.comEnte.desc (fun cd => { cd with sezioni := cd.sezioni ++ cb.sezEnti.map mkSezEntry }) pd2.comuni }) (alUpdate P (fun pd2 => { pd2 with comuni := alInsert cb.comEnte.desc ⟨strSlice cb.comEnte.cod 5 9, strSlice cb.comEnte.cod 2 5, cb.comEnte.cod, []⟩ pd2.comuni }) s.province)) } P { pd with comuni := pd.comuni ++ [(cb.comEnte.desc, mkComData cb.comEnte cb.sezEnti)] } (fun x hx => hwf x (by simp [hx])) hnd2 hfreshN hp hpne hlk2
    refine ⟨cc, ?_⟩
    rw [hstep1, hCM, buildAux_append, hsez, hrest]
    show ({ s with cur_com := cc, province := alUpdate P _ (alUpdate P _ (alUpdate P _ s.province)) } : BState) = _
    rw [alUpdate_comp, alUpdate_comp]
    congr 1
    apply alUpdate_congr
    intro v hv
    rw [hlook] at hv
    obtain rfl : pd = v := Option.some.inj hv
    show ProvData.mk pd.cod_api pd.cod_raw ((alUpdate cb.comEnte.desc (fun cd => { cd with sezioni := cd.sezioni ++ cb.sezEnti.map mkSezEntry }) (alInsert cb.comEnte.desc ⟨strSlice cb.comEnte.cod 5 9, strSlice cb.comEnte.cod 2 5, cb.comEnte.cod, []⟩ pd.comuni)) ++ rest.map (fun cb' => (cb'.comEnte.desc, mkComData cb'.comEnte cb'.sezEnti))) = _
    rw [hval]
    rw [List.append_assoc]
    rfl

theorem buildAux_forest (F : List ProvB) : ∀ s : BState,
    (∀ pb ∈ F, WFProv pb) →
    (F.map (fun pb => pb.provEnte.desc)).Nodup →
    (∀ pb ∈ F, pb.provEnte.desc ∉ alKeys s.province) →
    ∃ cp cc, buildAux s (flattenForest F) =
      { province := s.province ++ expectedMap F, cur_prov := cp, cur_com := cc } := by
  induction F with
  | nil =>
    intro s _ _ _
    refine ⟨s.cur_prov, s.cur_com, ?_⟩
    show s = _
    simp [expectedMap, flattenForest]
  | cons pb rest ih =>
    intro s hwf hnd hfresh
    obtain ⟨htp, hlp, hdp, hwfc, hndc⟩ := hwf pb (by simp)
    have hfreshpb : pb.provEnte.desc ∉ alKeys s.province := hfresh pb (by simp)
    have hnd1 : pb.provEnte.desc ∉ rest.map (fun pb' => pb'.provEnte.desc) := by
      rw [List.map_cons, List.nodup_cons] at hnd
      exact hnd.1
    have hnd2 : (rest.map (fun pb' => pb'.provEnte.desc)).Nodup := by
      rw [List.map_cons, List.nodup_cons] at hnd
      exact hnd.2
    have hstep1 : buildAux s (flattenForest (pb :: rest)) =
        buildAux (buildStep s pb.provEnte) (pb.comuni.flatMap flattenCom ++ flattenForest rest) := by
      show buildAux s ((pb :: rest).flatMap flattenProv) = _
      rw [List.flatMap_cons]
      rfl
    have hPR := buildStep_PR s pb.provEnte htp hlp
    have hins : alInsert pb.provEnte.desc (⟨strSlice pb.provEnte.cod 2 5, pb.provEnte.cod, []⟩ : ProvData) s.province = s.province ++ [(pb.provEnte.desc, ⟨strSlice pb.provEnte.cod 2 5, pb.provEnte.cod, []⟩)] := alInsert_of_not_mem _ _ _ hfreshpb
    have hlk1 : alLookup (alInsert pb.provEnte.desc (⟨strSlice pb.provEnte.cod 2 5, pb.provEnte.cod, []⟩ : ProvData) s.province) pb.provEnte.desc = some ⟨strSlice pb.provEnte.cod 2 5, pb.provEnte.cod, []⟩ := alLookup_insert_self _ _ _
    obtain ⟨cc1, hcom⟩ := buildAux_com_block pb.comuni { s with cur_prov := some pb.provEnte.desc, province := (alInsert pb.provEnte.desc ⟨strSlice pb.provEnte.cod 2 5, pb.provEnte.cod, []⟩ s.province) } pb.provEnte.desc ⟨strSlice pb.provEnte.cod 2 5, pb.provEnte.cod, []⟩ hwfc hndc (by intro cb _; show cb.comEnte.desc ∉ alKeys ([] : List (String × ComData)); simp [alKeys]) rfl hdp hlk1
    have hprov2 : alUpdate pb.provEnte.desc (fun pd2 => { pd2 with comuni := pd2.comuni ++ pb.comuni.map (fun cb => (cb.comEnte.desc, mkComData cb.comEnte cb.sezEnti)) }) (alInsert pb.provEnte.desc ⟨strSlice pb.provEnte.cod 2 5, pb.provEnte.cod, []⟩ s.province) = s.province ++ [(pb.provEnte.desc, mkProvData pb)] := by
      rw [hins, alUpdate_append_right _ _ _ _ hfreshpb]
      simp [alUpdate, mkProvData]
    have hfreshN : ∀ pb' ∈ rest, pb'.provEnte.desc ∉ alKeys (s.province ++ [(pb.provEnte.desc, mkProvData pb)]) := by
      intro pb' hpb'
      have h1 := hfresh pb' (by simp [hpb'])
      have h2 : pb'.provEnte.desc ≠ pb.provEnte.desc := fun he => hnd1 (he ▸ List.mem_map_of_mem _ hpb')
      simp only [alKeys, List.map_append, List.mem_append] at h1 ⊢
      rintro (hin | hin)
      · exact h1 hin
      · simp at hin
        exact h2 hin
    obtain ⟨cp, cc, hrest⟩ := ih { s with cur_prov := some pb.provEnte.desc, cur_com := cc1, province := (alUpdate pb.provEnte.desc (fun pd2 => { pd2 with comuni := pd2.comuni ++ pb.comuni.map (fun cb => (cb.comEnte.desc, mkComData cb.comEnte cb.sezEnti)) }) (alInsert pb.provEnte.desc ⟨strSlice pb.provEnte.cod 2 5, pb.provEnte.cod, []⟩ s.province)) } (fun x hx => hwf x (by simp [hx])) hnd2 (by intro pb' hpb'; show pb'.provEnte.desc ∉ alKeys (alUpdate _ _ _); rw [hprov2]; exact hfreshN pb' hpb')
    refine ⟨cp, cc, ?_⟩
    rw [hstep1, hPR, buildAux_append, hcom, hrest]
    show ({ province := (alUpdate pb.provEnte.desc (fun pd2 => { pd2 with comuni := pd2.comuni ++ pb.comuni.map (fun cb => (cb.comEnte.desc, mkComData cb.comEnte cb.sezEnti)) }) (alInsert pb.provEnte.desc ⟨strSlice pb.provEnte.cod 2 5, pb.provEnte.cod, []⟩ s.province)) ++ expectedMap rest, cur_prov := cp, cur_com := cc } : BState) = _
    rw [hprov2, List.append_assoc]
    rfl

/-- C7 counterexample: a strict pre-order entity list with valid 13-character
codes and distinct names within each parent, but an empty province name. The
claim asserts its section ends up under exactly one municipality under
exactly one province; the builder instead produces a province with no
municipalities at all (the empty name is falsy in the guards), so the
section appears nowhere and the built tree differs from the expected one. -/
theorem build_preorder_cex :
    build_mapping_from_anagrafica (flattenForest [ProvB.mk (Ente.mk "PR" "" "0508700000000") [ComB.mk (Ente.mk "CM" "C" "0508704200000") [Ente.mk "SZ" "S" "0508704200001"]]]) = [("", ⟨"087", "0508700000000", []⟩)] ∧
    build_mapping_from_anagrafica (flattenForest [ProvB.mk (Ente.mk "PR" "" "0508700000000") [ComB.mk (Ente.mk "CM" "C" "0508704200000") [Ente.mk "SZ" "S" "0508704200001"]]]) ≠ expectedMap [ProvB.mk (Ente.mk "PR" "" "0508700000000") [ComB.mk (Ente.mk "CM" "C" "0508704200000") [Ente.mk "SZ" "S" "0508704200001"]]] := by
  decide

/-- C7 amended: for every entity list in strict pre-order (each province
followed by its municipalities, each municipality followed by its sections,
all with 13-character codes and distinct NONEMPTY names within their
parent), the built hierarchy is exactly the expected tree: every province
appears once, its municipalities in input order beneath it, and every
section record under exactly the one municipality whose block contains it,
with sections in input order. -/
theorem build_preorder (F : List ProvB) (h : WFForest F) :
    build_mapping_from_anagrafica (flattenForest F) = expectedMap F := by
  obtain ⟨hwf, hnd⟩ := h
  obtain ⟨cp, cc, heq⟩ := buildAux_forest F initBState hwf hnd
    (by intro pb _; show pb.provEnte.desc ∉ alKeys ([] : ProvMap); simp [alKeys])
  show (buildAux initBState (flattenForest F)).province = _
  rw [heq]
  exact List.nil_append _

/-- C7 witness: a concrete one-province forest with two sections builds to
its expected tree. -/
theorem build_preorder_w :
    WFForest [ProvB.mk (Ente.mk "PR" "VENEZIA" "0508700000000") [ComB.mk (Ente.mk "CM" "Venezia" "0508704200000") [Ente.mk "SZ" "1" "0508704200001", Ente.mk "SZ" "2" "0508704200002"]]] ∧
    build_mapping_from_anagrafica (flattenForest [ProvB.mk (Ente.mk "PR" "VENEZIA" "0508700000000") [ComB.mk (Ente.mk "CM" "Venezia" "0508704200000") [Ente.mk "SZ" "1" "0508704200001", Ente.mk "SZ" "2" "0508704200002"]]]) = expectedMap [ProvB.mk (Ente.mk "PR" "VENEZIA" "0508700000000") [ComB.mk (Ente.mk "CM" "Venezia" "0508704200000") [Ente.mk "SZ" "1" "0508704200001", Ente.mk "SZ" "2" "0508704200002"]]] := by
  constructor
  · simp only [WFForest, WFProv, WFCom]
    decide
  · exact build_preorder [ProvB.mk (Ente.mk "PR" "VENEZIA" "0508700000000") [ComB.mk (Ente.mk "CM" "Venezia" "0508704200000") [Ente.mk "SZ" "1" "0508704200001", Ente.mk "SZ" "2" "0508704200002"]]] (by simp only [WFForest, WFProv, WFCom]; decide)
